import Mathlib

/-!
Verification development for the Maritime Market Watch repository
(`src/mmw`).  The Python modules `linker.py`, `analytics.py`,
`indices.py`, `prices.py` and `news.py` are shallowly embedded as pure
Lean functions over lists of table rows; SQL tables become lists of
structures, timestamps become day numbers, floats become rationals.
Each numbered claim about the code is then proved or refuted against
this embedding.
-/

/- ------------------------------------------------------------------
   Linker (`src/mmw/linker.py`)
   ------------------------------------------------------------------ -/

/-- Characters of a string, lower-cased (model of Python `str.lower()`;
`String.toLower` maps `Char.toLower` over the characters, which we do
directly so that terms reduce in the kernel). -/
def lowerChars (s : String) : List Char :=
  s.data.map Char.toLower

/-- `_match_score` of `linker.py`: the number of keywords `kw` with
`kw.lower() in text.lower()` (case-insensitive substring test). -/
def match_score (text : String) (keywords : List String) : Nat :=
  List.countP (fun kw => decide (lowerChars kw <:+: lowerChars text)) keywords

/-- The `MAPPINGS` dictionary of `linker.py`: canonical asset-group name
to alias tickers, in source order. -/
def MAPPINGS : List (String × List String) :=
  [("MAERSK", ["MAERSK-B.CO"]),
   ("ZIM", ["ZIM"]),
   ("HAPAG", ["HLAG.DE", "HLAG.F"]),
   ("COSCO", ["1919.HK"])]

/-- The `INDEX_KEYWORDS` dictionary of `linker.py`: index code to keyword
phrases, in source order. -/
def INDEX_KEYWORDS : List (String × List String) :=
  [("SCFI", ["SCFI"]),
   ("HARPEX", ["HARPEX"]),
   ("WCI", ["Drewry", "World Container Index"]),
   ("FBX", ["FBX", "Freightos"])]

/-- A row of the `news` table as seen by the linker.  `title` is
non-nullable in the schema (`db.py`); `summary` is nullable.  The
source guard `item.title or ""` only replaces an empty string by an
empty string, so it is the identity on non-null titles. -/
structure NewsItem where
  id : Nat
  title : String
  summary : Option String
deriving DecidableEq

/-- A row of the `entities` table (only the columns the linker reads). -/
structure Entity where
  news_id : Nat
  value : String
deriving DecidableEq

/-- A row of the `links` table.  The source stores `score=float(score)`
where `score` is an integer keyword count; `float` is exact there, so we
keep the count as a natural number. -/
structure Link where
  news_id : Nat
  asset_ticker : Option String
  index_code : Option String
  score : Nat
deriving DecidableEq

/-- The entity values associated to one news item
(`select Entity.value where Entity.news_id == item.id`). -/
def entityVals (nid : Nat) (entities : List Entity) : List String :=
  (entities.filter (fun e => e.news_id == nid)).map Entity.value

/-- The haystack `" ".join([item.title or "", item.summary or "",
" ".join(entity_vals)])` built by `link_news`. -/
def full_text (item : NewsItem) (vals : List String) : String :=
  String.intercalate " " [item.title, item.summary.getD "", String.intercalate " " vals]

/-- The haystack of a news item given the entity table. -/
def itemText (item : NewsItem) (entities : List Entity) : String :=
  full_text item (entityVals item.id entities)

/-- The asset links `link_news` adds for one news item: for each group of
`MAPPINGS`, keywords are the group name plus all alias tickers, and on a
positive score one link per alias ticker is added. -/
def assetLinks (nid : Nat) (text : String) : List Link :=
  MAPPINGS.flatMap (fun p =>
    let score := match_score text (p.1 :: p.2)
    if score = 0 then [] else p.2.map (fun t => ⟨nid, some t, none, score⟩))

/-- The index links `link_news` adds for one news item: for each entry of
`INDEX_KEYWORDS`, on a positive score one link for the index code. -/
def indexLinks (nid : Nat) (text : String) : List Link :=
  INDEX_KEYWORDS.flatMap (fun p =>
    let score := match_score text p.2
    if score = 0 then [] else [⟨nid, none, some p.1, score⟩])

/-- All links `link_news` inserts for one news item. -/
def linksForItem (item : NewsItem) (entities : List Entity) : List Link :=
  assetLinks item.id (itemText item entities) ++ indexLinks item.id (itemText item entities)

/-- The body of `link_news`: for every news item, delete its existing
links, then insert the freshly computed ones.  The function returns the
final state of the `links` table. -/
def link_news (news : List NewsItem) (entities : List Entity) (links : List Link) :
    List Link :=
  news.foldl
    (fun acc item => acc.filter (fun l => l.news_id != item.id) ++ linksForItem item entities)
    links

/- ------------------------------------------------------------------
   Analytics (`src/mmw/analytics.py`)

   NOTE on the shipped file: `analytics.py` line 99 reads
   `df["sent_len"] = df["summary_ai"].fillna(""").str.len()`.
   The three quote characters open a triple-quoted string literal that
   is closed only by the docstring of `event_study`, and the docstring's
   closing quotes then open an unterminated literal, so the module as
   shipped is a Python `SyntaxError` and cannot be imported (the
   repository's own `tests/test_analytics.py` imports it).  The intent,
   evidenced by the module docstring and the tests, is `fillna("")`.
   The definitions below embed the function bodies as written (with
   that one-character slip read as the intended `fillna("")`).

   Conventions: dates/timestamps are day numbers (price granularity is
   daily); floats are rationals.  `Price.close` is nullable in the
   schema; the claims only concern non-null closes, so `close : ℚ`
   here.  Division by a zero close is outside the modelled domain
   (pandas produces `inf` there, `ℚ` division is total).
   ------------------------------------------------------------------ -/

/-- A row of the query `select Asset.ticker, Price.date, Price.close`
joined on `Asset.id == Price.asset_id` (`compute_daily_returns`). -/
structure PriceRow where
  ticker : String
  date : Nat
  close : ℚ
deriving DecidableEq

/-- An output row of `compute_daily_returns` (columns date, ticker, ret). -/
structure RetRow where
  date : Nat
  ticker : String
  ret : ℚ
deriving DecidableEq

/-- The query's `where Asset.ticker.in_(tickers)` restriction. -/
def queryRows (tickers : List String) (prices : List PriceRow) : List PriceRow :=
  prices.filter (fun r => tickers.contains r.ticker)

/-- The query's `order_by(..., Price.date)` inside one ticker group (the
source orders by (ticker, date) and then groups by ticker; a stable sort
by date within the group is the same thing). -/
def sortByDate (rows : List PriceRow) : List PriceRow :=
  List.insertionSort (fun a b => a.date ≤ b.date) rows

/-- `groupby("ticker")["close"].pct_change()` followed by
`dropna(subset=["ret"])` on one ticker group in date order: the first
row has no defined return and is dropped, every later row `i` yields
`close[i]/close[i-1] - 1`. -/
def pctChangeRets : List PriceRow → List RetRow
  | p :: q :: rest => ⟨q.date, q.ticker, q.close / p.close - 1⟩ :: pctChangeRets (q :: rest)
  | _ => []

/-- `compute_daily_returns` of `analytics.py`.  The group order of the
output is the first-occurrence order of tickers rather than the sorted
order; the per-ticker contents are identical and no claim depends on
the order of distinct-ticker blocks. -/
def compute_daily_returns (tickers : List String) (prices : List PriceRow) : List RetRow :=
  if tickers.isEmpty then []
  else
    let df := queryRows tickers prices
    if df.isEmpty then []
    else
      ((df.map PriceRow.ticker).dedup).flatMap
        (fun t => pctChangeRets (sortByDate (df.filter (fun r => r.ticker == t))))

/-- The claim's description of one ticker's returns, stated from the spec
for comparison with the source pipeline: for each consecutive pair of
the ticker's date-ordered price rows, `close[i]/close[i-1] - 1`. -/
def specConsecutiveReturns (t : String) (srows : List PriceRow) : List RetRow :=
  (srows.zip srows.tail).map (fun pr => ⟨pr.2.date, t, pr.2.close / pr.1.close - 1⟩)

/-- A published timestamp: UTC day number plus time of day.  The pandas
`.dt.date` projection is `day`. -/
structure Timestamp where
  day : Nat
  tod : Nat
deriving DecidableEq

/-- A row of the `news` table (`db.py`): `url` and `title` are
non-nullable, the remaining columns are nullable. -/
structure NewsRow where
  id : Nat
  url : String
  title : String
  summary : Option String
  summary_ai : Option String
  published_at : Option Timestamp
  source : Option String
deriving DecidableEq

/-- An output row of `news_intensity` (columns date, news_count,
avg_sentiment). -/
structure IntensityRow where
  date : Nat
  news_count : Nat
  avg_sentiment : ℚ
deriving DecidableEq

/-- Distinct keys in ascending order, as produced by a pandas `groupby`
(which sorts group keys). -/
def sortedNatKeys (l : List Nat) : List Nat :=
  List.insertionSort (fun a b => a ≤ b) l.dedup

/-- `news_intensity` of `analytics.py`, with the `fillna(""")` slip read
as the intended `fillna("")` (see the module note above): group news by
the UTC day of `published_at`, count rows per day and average the
character length of `summary_ai` (null summaries count as length 0).
Rows with a null `published_at` have a null group key and are dropped
by the pandas groupby. -/
def news_intensity (news : List NewsRow) : List IntensityRow :=
  if news.isEmpty then []
  else
    let rows := news.filterMap (fun n =>
      n.published_at.map (fun ts => (ts.day, ((n.summary_ai.getD "").length : ℚ))))
    (sortedNatKeys (rows.map Prod.fst)).map (fun d =>
      let group := (rows.filter (fun r => r.1 == d)).map Prod.snd
      ⟨d, group.length, group.sum / (group.length : ℚ)⟩)

/-- An output row of `rolling_corr` (columns date, pair, corr).  The
source stores the float Pearson correlation `cov / sqrt(vx * vy)`; the
model keeps the rational triple `(cov, vx, vy)` that determines it, and
`none` models a null (NaN) correlation.  The claims about
`rolling_corr` only concern nullness. -/
structure CorrRow where
  date : Nat
  pair : String
  corr : Option (ℚ × ℚ × ℚ)
deriving DecidableEq

/-- The sorted distinct dates of the pivoted returns frame (a pandas
pivot sorts its index). -/
def pivotDates (retDf : List RetRow) : List Nat :=
  sortedNatKeys (retDf.map RetRow.date)

/-- The ticker columns of the pivoted returns frame.  (pandas sorts the
columns lexicographically; no claim depends on the column order, so
first-occurrence order is used.) -/
def pivotTickers (retDf : List RetRow) : List String :=
  (retDf.map RetRow.ticker).dedup

/-- One cell of the pivoted frame: the ticker's return on the date, or
null when absent. -/
def pivotCell (retDf : List RetRow) (t : String) (d : Nat) : Option ℚ :=
  (retDf.find? (fun r => r.ticker == t && r.date == d)).map RetRow.ret

/-- One ticker column of the pivoted frame, aligned on `pivotDates`. -/
def pivotColumn (retDf : List RetRow) (t : String) : List (Option ℚ) :=
  (pivotDates retDf).map (pivotCell retDf t)

/-- `itertools.combinations(columns, 2)`: all unordered pairs, each once,
first component earlier in the column list. -/
def pairsOf {α : Type} : List α → List (α × α)
  | [] => []
  | x :: xs => xs.map (fun y => (x, y)) ++ pairsOf xs

/-- The valid observations of the trailing window of length `w` ending at
position `i`: positions where both series are non-null. -/
def windowPairs (xs ys : List (Option ℚ)) (w i : Nat) : List (ℚ × ℚ) :=
  (((xs.zip ys).take (i + 1)).drop (i + 1 - w)).filterMap
    (fun p => p.1.bind (fun x => p.2.map (fun y => (x, y))))

/-- Correlation statistics of a sample of pairs: centered cross-products
and variances `(cov, vx, vy)`; null when either variance is zero (the
float correlation is then NaN). -/
def corrStats (ps : List (ℚ × ℚ)) : Option (ℚ × ℚ × ℚ) :=
  let n : ℚ := ps.length
  let mx := (ps.map Prod.fst).sum / n
  let my := (ps.map Prod.snd).sum / n
  let cov := (ps.map (fun p => (p.1 - mx) * (p.2 - my))).sum
  let vx := (ps.map (fun p => (p.1 - mx) ^ 2)).sum
  let vy := (ps.map (fun p => (p.2 - my) ^ 2)).sum
  if vx = 0 ∨ vy = 0 then none else some (cov, vx, vy)

/-- `x.rolling(window).corr(y)` at position `i`: null when the trailing
window holds fewer than `window` valid pairs (`min_periods` defaults to
the window size), otherwise the correlation statistics. -/
def rollingCorrCell (xs ys : List (Option ℚ)) (w i : Nat) : Option (ℚ × ℚ × ℚ) :=
  let ps := windowPairs xs ys w i
  if ps.length < w then none else corrStats ps

/-- `rolling_corr` of `analytics.py`: pivot the tidy returns to a
date × ticker frame, and for every unordered ticker pair emit one long
row per pivot date labelled `"A-B"`. -/
def rolling_corr (retDf : List RetRow) (window : Nat) : List CorrRow :=
  if retDf.isEmpty then []
  else
    (pairsOf (pivotTickers retDf)).flatMap (fun ab =>
      (List.range (pivotDates retDf).length).map (fun i =>
        ⟨(pivotDates retDf).getD i 0, ab.1 ++ "-" ++ ab.2,
          rollingCorrCell (pivotColumn retDf ab.1) (pivotColumn retDf ab.2) window i⟩))

/-- `WATCHLIST_TICKERS` of `config.py`. -/
def WATCHLIST_TICKERS : List String :=
  ["ZIM", "MATX", "SBLK", "GOGL", "GNK", "FRO", "DHT", "EURN", "GSL", "DAC",
   "CMRE", "TRMD", "BDRY", "BOAT"]

/-- The per-day market return of `event_study`: the equal-weight mean of
all returns on that day (`groupby("date")["ret"].mean()`). -/
def marketRet (retDf : List RetRow) (d : Nat) : ℚ :=
  let rets := (retDf.filter (fun r => r.date == d)).map RetRow.ret
  rets.sum / (rets.length : ℚ)

/-- The `merged` frame of `event_study` restricted to its date and abret
columns: for each of the target ticker's return rows (in input order),
the abnormal return = ticker return minus market return; the left join
on date always finds the market row because the ticker's dates come
from the same returns frame. -/
def abnormalRows (retDf : List RetRow) (t : String) : List (Nat × ℚ) :=
  (retDf.filter (fun r => r.ticker == t)).map
    (fun r => (r.date, r.ret - marketRet retDf r.date))

/-- The distinct event days of `event_study`: days of news items joined
to links with the given asset ticker.  News rows with a null
`published_at` are outside the modelled domain (the source would carry
a NaT through `unique()` and then slice `merged.loc[NaT:NaT]`). -/
def eventDays (news : List NewsRow) (links : List Link) (t : String) : List Nat :=
  (((links.filter (fun l => l.asset_ticker == some t)).filterMap
      (fun l => (news.find? (fun n => n.id == l.news_id)).bind NewsRow.published_at)).map
    Timestamp.day).dedup

/-- The concatenated event-window observations of `event_study`: for each
event day, the abnormal returns on days within the inclusive window,
tagged with the signed offset from the event day.  (Empty per-event
slices are skipped by the source; concatenation ignores them.) -/
def eventContribs (retDf : List RetRow) (news : List NewsRow) (links : List Link)
    (t : String) (w : Int × Int) : List (Int × ℚ) :=
  (eventDays news links t).flatMap (fun ed =>
    ((abnormalRows retDf t).filter
        (fun p => decide ((ed : Int) + w.1 ≤ (p.1 : Int)) &&
          decide ((p.1 : Int) ≤ (ed : Int) + w.2))).map
      (fun p => ((p.1 : Int) - (ed : Int), p.2)))

/-- The pandas sample variance (`std` squared, `ddof=1`): null for fewer
than two observations.  The source's `abret_std` column is the square
root of this value; the model keeps the rational variance. -/
def sampleVar (xs : List ℚ) : Option ℚ :=
  if xs.length ≤ 1 then none
  else some ((xs.map (fun x => (x - xs.sum / (xs.length : ℚ)) ^ 2)).sum /
    ((xs.length : ℚ) - 1))

/-- An output row of `event_study` (columns rel_day, abret_mean,
abret_std — kept as the sample variance `abret_var`, see `sampleVar` —
and n_events). -/
structure EventRow where
  rel_day : Int
  abret_mean : ℚ
  abret_var : Option ℚ
  n_events : Nat
deriving DecidableEq

/-- Distinct integer keys in ascending order (pandas groupby). -/
def sortedIntKeys (l : List Int) : List Int :=
  List.insertionSort (fun a b => a ≤ b) l.dedup

/-- The observations contributing to one relative-day offset. -/
def offsetVals (cs : List (Int × ℚ)) (r : Int) : List ℚ :=
  (cs.filter (fun c => c.1 == r)).map Prod.snd

/-- `events.groupby("rel_day")["abret"].agg([mean, std, count])`. -/
def groupAggEvents (cs : List (Int × ℚ)) : List EventRow :=
  (sortedIntKeys (cs.map Prod.fst)).map (fun r =>
    ⟨r, (offsetVals cs r).sum / ((offsetVals cs r).length : ℚ),
      sampleVar (offsetVals cs r), (offsetVals cs r).length⟩)

/-- `event_study` of `analytics.py`.  The persisted `Run` snapshot
(`_save_run`) is a side effect outside the modelled state; the function
here returns the aggregated frame. -/
def event_study (prices : List PriceRow) (news : List NewsRow) (links : List Link)
    (t : String) (w : Int × Int) : List EventRow :=
  let retDf := compute_daily_returns WATCHLIST_TICKERS prices
  if retDf.isEmpty then []
  else if (eventDays news links t).isEmpty then []
  else if (eventContribs retDf news links t w).isEmpty then []
  else groupAggEvents (eventContribs retDf news links t w)

/- ------------------------------------------------------------------
   Upserts (`src/mmw/prices.py`, `src/mmw/indices.py`, `src/mmw/news.py`)

   The SQLite state relevant to the upsert operations.  Primary keys are
   generated by a counter; `deriving` equality keeps the state
   decidable.  The dialect insert `ON CONFLICT DO UPDATE` on a unique
   index is modelled as find-then-update-or-append, which is its
   observable semantics.
   ------------------------------------------------------------------ -/

/-- A row of the `assets` table. -/
structure AssetRec where
  id : Nat
  ticker : String
deriving DecidableEq

/-- A row of the `prices` table.  (`open` is a Lean keyword, hence
`openp`.) -/
structure PriceRec where
  asset_id : Nat
  date : Nat
  openp : Option ℚ
  high : Option ℚ
  low : Option ℚ
  close : Option ℚ
  volume : Option ℚ
deriving DecidableEq

/-- A row of the `indices` table. -/
structure IndexRec where
  id : Nat
  code : String
deriving DecidableEq

/-- A row of the `index_points` table. -/
structure PointRec where
  index_id : Nat
  date : Nat
  value : ℚ
deriving DecidableEq

/-- The database state touched by the three upsert operations. -/
structure DB where
  assets : List AssetRec
  prices : List PriceRec
  indices : List IndexRec
  points : List PointRec
  news : List NewsRow
  nextAssetId : Nat
  nextIndexId : Nat
  nextNewsId : Nat
deriving DecidableEq

/-- The empty database (`init_db` on a fresh file). -/
def emptyDB : DB := ⟨[], [], [], [], [], 0, 0, 0⟩

/-- An input row of `upsert_prices` (one row of the tidy price frame). -/
structure PriceDfRow where
  ticker : String
  date : Nat
  openp : Option ℚ
  high : Option ℚ
  low : Option ℚ
  close : Option ℚ
  volume : Option ℚ
deriving DecidableEq

/-- `upsert_prices`: look up the asset by ticker, creating it first when
absent (`session.add(Asset(ticker=ticker)); session.flush()`). -/
def findOrCreateAsset (st : DB) (t : String) : DB × Nat :=
  match st.assets.find? (fun a => a.ticker == t) with
  | some a => (st, a.id)
  | none =>
      ({ st with
          assets := st.assets ++ [⟨st.nextAssetId, t⟩],
          nextAssetId := st.nextAssetId + 1 },
        st.nextAssetId)

/-- One `sqlite_insert(Price).on_conflict_do_update` statement: on a
conflict with the unique `(asset_id, date)` index the OHLCV columns are
updated, otherwise the row is inserted. -/
def upsertPriceRow (st : DB) (aid : Nat) (r : PriceDfRow) : DB :=
  match st.prices.find? (fun p => p.asset_id == aid && p.date == r.date) with
  | some _ =>
      { st with prices := st.prices.map (fun p =>
          if p.asset_id == aid && p.date == r.date then
            { p with openp := r.openp, high := r.high, low := r.low,
                     close := r.close, volume := r.volume }
          else p) }
  | none =>
      { st with prices := st.prices ++
          [⟨aid, r.date, r.openp, r.high, r.low, r.close, r.volume⟩] }

/-- `upsert_prices` of `prices.py`.  The source iterates `groupby`
groups and resolves each asset once per group; resolving it per row
gives the same final state (the first row of a ticker creates the
asset, later rows find it). -/
def upsert_prices (df : List PriceDfRow) (st : DB) : DB :=
  df.foldl (fun s r =>
    let sa := findOrCreateAsset s r.ticker
    upsertPriceRow sa.1 sa.2 r) st

/-- An input row of `_upsert_df` in `indices.py` after its
`pd.to_datetime` / `float` / `str` conversions. -/
structure IdxUpRow where
  index_code : String
  date : Nat
  value : ℚ
deriving DecidableEq

/-- The index lookup of `_upsert_df`: find the index by code
(`scalar_one_or_none`, well-defined because codes are unique), create
it when absent (`session.add(Index(code=...)); session.flush()`). -/
def findOrCreateIndex (st : DB) (c : String) : DB × Nat :=
  match st.indices.find? (fun i => i.code == c) with
  | some i => (st, i.id)
  | none =>
      ({ st with
          indices := st.indices ++ [⟨st.nextIndexId, c⟩],
          nextIndexId := st.nextIndexId + 1 },
        st.nextIndexId)

/-- The point upsert of `_upsert_df`: select the point on the
`(index_id, date)` key, update its value when present, insert it
otherwise. -/
def upsertPointFor (st : DB) (iid : Nat) (r : IdxUpRow) : DB :=
  match st.points.find? (fun p => p.index_id == iid && p.date == r.date) with
  | some _ =>
      { st with points := st.points.map (fun p =>
          if p.index_id == iid && p.date == r.date then { p with value := r.value }
          else p) }
  | none =>
      { st with points := st.points ++ [⟨iid, r.date, r.value⟩] }

/-- One iteration of `_upsert_df`. -/
def upsertIdxRow (st : DB) (r : IdxUpRow) : DB :=
  let si := findOrCreateIndex st r.index_code
  upsertPointFor si.1 si.2 r

/-- `_upsert_df` of `indices.py`. -/
def upsert_df (rows : List IdxUpRow) (st : DB) : DB :=
  rows.foldl upsertIdxRow st

/-- An input row of `upsert_news` (one row of the normalized news
frame; `ts` is the coerced published timestamp). -/
structure NewsDfRow where
  url : String
  title : String
  summary : Option String
  source : Option String
  ts : Option Timestamp
deriving DecidableEq

/-- One `sqlite_insert(News).on_conflict_do_update` statement keyed on
the unique `url`: an insert assigns a fresh id and leaves `summary_ai`
null; an update rewrites title, summary, source and published_at of the
existing row (keeping its id and `summary_ai`). -/
def upsertNewsRow (st : DB) (r : NewsDfRow) : DB :=
  if st.news.any (fun n => n.url == r.url) then
    { st with news := st.news.map (fun n =>
        if n.url == r.url then
          { n with title := r.title, summary := r.summary,
                   published_at := r.ts, source := r.source }
        else n) }
  else
    { st with
        news := st.news ++ [⟨st.nextNewsId, r.url, r.title, r.summary, none, r.ts, r.source⟩],
        nextNewsId := st.nextNewsId + 1 }

/-- `upsert_news` of `news.py` (the returned new-row count is not part
of the modelled state). -/
def upsert_news (df : List NewsDfRow) (st : DB) : DB :=
  df.foldl upsertNewsRow st

/-- A raw CSV row of the manual index file: the four expected columns,
`none` for a missing/null cell. -/
structure CsvRow where
  date : Option String
  index_code : Option String
  value : Option String
  source : Option String
deriving DecidableEq

/-- `import_indices_from_csv` of `indices.py`, parameterized by the
pandas parsers: `pd` models `pd.to_datetime(..., errors="coerce")` and
`pn` models `pd.to_numeric(..., errors="coerce")` (both yield null on
malformed input).  `file = none` models a missing CSV file.  The
pipeline is the source's: drop rows with a null in any of the four
columns, coerce date and value, drop rows whose coercion failed, and
upsert what remains unless nothing remains. -/
def csvImportIndices (pd : String → Option Nat) (pn : String → Option ℚ)
    (file : Option (List CsvRow)) (st : DB) : DB :=
  match file with
  | none => st
  | some rows =>
      let s1 := rows.filter (fun r =>
        r.date.isSome && r.index_code.isSome && r.value.isSome && r.source.isSome)
      let s2 := s1.map (fun r => (pd (r.date.getD ""), r.index_code.getD "", pn (r.value.getD "")))
      let s3 := s2.filterMap (fun x =>
        match x.1, x.2.2 with
        | some d, some v => some (⟨x.2.1, d, v⟩ : IdxUpRow)
        | _, _ => none)
      if s3.isEmpty then st else upsert_df s3 st

/-- The claim's description of the surviving CSV rows, stated from the
spec for comparison: a row survives exactly when none of its four cells
is null and both coercions succeed, and it then carries the parsed date
and value. -/
def specCleanRows (pd : String → Option Nat) (pn : String → Option ℚ)
    (rows : List CsvRow) : List IdxUpRow :=
  rows.filterMap (fun r =>
    match r.date, r.index_code, r.value, r.source with
    | some ds, some c, some vs, some _ =>
        (pd ds).bind (fun d => (pn vs).map (fun v => (⟨c, d, v⟩ : IdxUpRow)))
    | _, _, _, _ => none)

/-- One bulk upsert operation, as issued by the ingestors. -/
inductive DBOp where
  | priceUp : List PriceDfRow → DBOp
  | indexUp : List IdxUpRow → DBOp
  | newsUp : List NewsDfRow → DBOp

/-- Apply one upsert operation. -/
def applyOp (st : DB) : DBOp → DB
  | .priceUp df => upsert_prices df st
  | .indexUp rows => upsert_df rows st
  | .newsUp df => upsert_news df st

/-- Apply a sequence of upsert operations. -/
def applyOps (ops : List DBOp) (st : DB) : DB :=
  ops.foldl applyOp st

/-- The natural-key uniqueness invariants of the schema: at most one
price per `(asset_id, date)`, at most one index point per
`(index_id, date)`, at most one news row per url, and the unique
ticker/code columns that the asset/index lookups rely on. -/
def DBInv (st : DB) : Prop :=
  (st.prices.map (fun p => (p.asset_id, p.date))).Nodup ∧
  (st.points.map (fun p => (p.index_id, p.date))).Nodup ∧
  (st.news.map NewsRow.url).Nodup ∧
  (st.assets.map AssetRec.ticker).Nodup ∧
  (st.indices.map IndexRec.code).Nodup

/-- A link targets exactly one of an asset ticker and an index code. -/
def ExclusiveTarget (l : Link) : Prop :=
  (l.asset_ticker = none ∧ l.index_code ≠ none) ∨
    (l.asset_ticker ≠ none ∧ l.index_code = none)

instance : IsTotal PriceRow (fun a b => a.date ≤ b.date) :=
  ⟨fun a b => Nat.le_total a.date b.date⟩

instance : IsTrans PriceRow (fun a b => a.date ≤ b.date) :=
  ⟨fun _ _ _ h1 h2 => Nat.le_trans h1 h2⟩

instance : IsAntisymm PriceRow (fun a b => a.date < b.date) :=
  ⟨fun _ _ h1 h2 => absurd h2 (Nat.lt_asymm h1)⟩

/- ------------------------------------------------------------------
   Theorems: linker (claims C1, C4, C10)
   ------------------------------------------------------------------ -/

theorem mem_assetLinks {l : Link} {nid : Nat} {text : String}
    (h : l ∈ assetLinks nid text) :
    l.news_id = nid ∧ (∃ t, l.asset_ticker = some t) ∧ l.index_code = none := by
  rcases List.mem_flatMap.mp h with ⟨p, hp, hl⟩
  dsimp only [assetLinks] at hl
  split at hl
  · simp at hl
  · rcases List.mem_map.mp hl with ⟨t, ht, rfl⟩
    exact ⟨rfl, ⟨t, rfl⟩, rfl⟩

theorem mem_indexLinks {l : Link} {nid : Nat} {text : String}
    (h : l ∈ indexLinks nid text) :
    l.news_id = nid ∧ l.asset_ticker = none ∧ (∃ c, l.index_code = some c) := by
  rcases List.mem_flatMap.mp h with ⟨p, hp, hl⟩
  dsimp only [indexLinks] at hl
  split at hl
  · simp at hl
  · rcases List.mem_singleton.mp hl with rfl
    exact ⟨rfl, rfl, ⟨p.1, rfl⟩⟩

theorem mem_linksForItem_news_id {l : Link} {item : NewsItem} {entities : List Entity}
    (h : l ∈ linksForItem item entities) : l.news_id = item.id := by
  rcases List.mem_append.mp h with h' | h'
  · exact (mem_assetLinks h').1
  · exact (mem_indexLinks h').1

/-- Claim C1: `link_news` scores each news item against the haystack of
title, summary and entity values.  Conjuncts: (i) the score is invariant
under letter-case changes of the text; (ii) for each asset group, the
links carrying each alias ticker are exactly one link with the group's
score when it is positive, and none otherwise; (iii) likewise exactly
one link per index code with its keyword-phrase score; (iv) a news item
whose haystack contains no keyword of any group or index gets zero
links. -/
theorem c1_linker_scoring (item : NewsItem) (entities : List Entity) :
    (∀ (kws : List String) (t1 t2 : String),
        lowerChars t1 = lowerChars t2 → match_score t1 kws = match_score t2 kws)
    ∧ (∀ p ∈ MAPPINGS, ∀ t ∈ p.2,
        (linksForItem item entities).filter (fun l => l.asset_ticker == some t) =
          if match_score (itemText item entities) (p.1 :: p.2) = 0 then []
          else [⟨item.id, some t, none, match_score (itemText item entities) (p.1 :: p.2)⟩])
    ∧ (∀ p ∈ INDEX_KEYWORDS,
        (linksForItem item entities).filter (fun l => l.index_code == some p.1) =
          if match_score (itemText item entities) p.2 = 0 then []
          else [⟨item.id, none, some p.1, match_score (itemText item entities) p.2⟩])
    ∧ ((∀ p ∈ MAPPINGS, ∀ kw ∈ p.1 :: p.2,
          ¬ lowerChars kw <:+: lowerChars (itemText item entities)) →
        (∀ p ∈ INDEX_KEYWORDS, ∀ kw ∈ p.2,
          ¬ lowerChars kw <:+: lowerChars (itemText item entities)) →
        linksForItem item entities = []) := by
  refine ⟨?_, ?_, ?_, ?_⟩
  · intro kws t1 t2 h
    simp only [match_score, h]
  · intro p hp t ht
    have hidx : (indexLinks item.id (itemText item entities)).filter
        (fun l => l.asset_ticker == some t) = [] := by
      rw [List.filter_eq_nil_iff]
      intro a ha
      have := (mem_indexLinks ha).2.1
      simp [this]
    rw [linksForItem, List.filter_append, hidx, List.append_nil]
    fin_cases hp <;> fin_cases ht <;>
      · simp only [assetLinks, MAPPINGS, List.flatMap_cons, List.flatMap_nil,
          List.filter_append, List.append_nil]
        split_ifs <;>
          simp_all [List.filter_cons]
  · intro p hp
    have hast : (assetLinks item.id (itemText item entities)).filter
        (fun l => l.index_code == some p.1) = [] := by
      rw [List.filter_eq_nil_iff]
      intro a ha
      have := (mem_assetLinks ha).2.2
      simp [this]
    rw [linksForItem, List.filter_append, hast, List.nil_append]
    fin_cases hp <;>
      · simp only [indexLinks, INDEX_KEYWORDS, List.flatMap_cons, List.flatMap_nil,
          List.filter_append, List.append_nil]
        split_ifs <;>
          simp_all [List.filter_cons]
  · intro h1 h2
    have hs1 : ∀ p ∈ MAPPINGS, match_score (itemText item entities) (p.1 :: p.2) = 0 := by
      intro p hp
      rw [match_score, List.countP_eq_zero]
      intro kw hkw
      simpa using h1 p hp kw hkw
    have hs2 : ∀ p ∈ INDEX_KEYWORDS, match_score (itemText item entities) p.2 = 0 := by
      intro p hp
      rw [match_score, List.countP_eq_zero]
      intro kw hkw
      simpa using h2 p hp kw hkw
    rw [linksForItem, List.append_eq_nil]
    constructor
    · rw [assetLinks, List.flatMap_eq_nil_iff]
      intro p hp
      simp [hs1 p hp]
    · rw [indexLinks, List.flatMap_eq_nil_iff]
      intro p hp
      simp [hs2 p hp]

/-- Witness for C1: a concrete item whose haystack mentions ZIM twice
over the group's keywords (group name and alias both match), yielding
one asset link of score 2. -/
theorem c1_linker_scoring_witness :
    (linksForItem ⟨7, "ZIM and Drewry update", none⟩ []).filter
        (fun l => l.asset_ticker == some "ZIM") = [⟨7, some "ZIM", none, 2⟩] := by
  have h := (c1_linker_scoring ⟨7, "ZIM and Drewry update", none⟩ []).2.1
    ("ZIM", ["ZIM"]) (by decide) "ZIM" (by decide)
  rw [h]
  decide

theorem link_news_eq (news : List NewsItem) (entities : List Entity) (links : List Link)
    (h : (news.map NewsItem.id).Nodup) :
    link_news news entities links =
      links.filter (fun l => !((news.map NewsItem.id).contains l.news_id)) ++
        news.flatMap (fun item => linksForItem item entities) := by
  induction news generalizing links with
  | nil => simp [link_news]
  | cons item rest ih =>
      rw [List.map_cons, List.nodup_cons] at h
      rw [link_news, List.foldl_cons]
      rw [show (List.foldl
          (fun acc it => acc.filter (fun l => l.news_id != it.id) ++ linksForItem it entities)
          (links.filter (fun l => l.news_id != item.id) ++ linksForItem item entities) rest) =
          link_news rest entities
            (links.filter (fun l => l.news_id != item.id) ++ linksForItem item entities) from rfl]
      rw [ih _ h.2, List.filter_append, List.filter_filter]
      have h1 : (links.filter
          (fun a => !((rest.map NewsItem.id).contains a.news_id) && (a.news_id != item.id))) =
          links.filter (fun l => !(((item :: rest).map NewsItem.id).contains l.news_id)) := by
        apply List.filter_congr
        intro a _
        simp only [List.map_cons, List.contains_cons, Bool.not_or]
        rw [Bool.and_comm]
        rfl
      have h2 : ((linksForItem item entities).filter
          (fun a => !((rest.map NewsItem.id).contains a.news_id))) =
          linksForItem item entities := by
        rw [List.filter_eq_self]
        intro a ha
        have hid := mem_linksForItem_news_id ha
        simp [List.contains, hid, List.elem_eq_mem, h.1]
      rw [h1, h2, List.flatMap_cons, ← List.append_assoc]

theorem flatMap_filter_item (news : List NewsItem) (entities : List Entity)
    (h : (news.map NewsItem.id).Nodup) (item : NewsItem) (hmem : item ∈ news) :
    (news.flatMap (fun i => linksForItem i entities)).filter
        (fun l => l.news_id == item.id) = linksForItem item entities := by
  induction news with
  | nil => simp at hmem
  | cons i rest ih =>
      rw [List.map_cons, List.nodup_cons] at h
      rw [List.flatMap_cons, List.filter_append]
      rcases List.mem_cons.mp hmem with rfl | hmem'
      · have hrest : ((rest.flatMap (fun i => linksForItem i entities)).filter
            (fun l => l.news_id == item.id)) = [] := by
          rw [List.filter_eq_nil_iff]
          intro a ha
          rcases List.mem_flatMap.mp ha with ⟨i', hi', ha'⟩
          have := mem_linksForItem_news_id ha'
          have hne : i'.id ≠ item.id := by
            intro hcontra
            exact h.1 (hcontra ▸ List.mem_map_of_mem NewsItem.id hi')
          simp [this, hne]
        have hself : ((linksForItem item entities).filter
            (fun l => l.news_id == item.id)) = linksForItem item entities := by
          rw [List.filter_eq_self]
          intro a ha
          simp [mem_linksForItem_news_id ha]
        rw [hrest, hself, List.append_nil]
      · have hne : i.id ≠ item.id := by
          intro hcontra
          exact h.1 (hcontra ▸ List.mem_map_of_mem NewsItem.id hmem')
        have hi : ((linksForItem i entities).filter (fun l => l.news_id == item.id)) = [] := by
          rw [List.filter_eq_nil_iff]
          intro a ha
          simp [mem_linksForItem_news_id ha, hne]
        rw [hi, List.nil_append, ih h.2 hmem']

/-- Claim C4: `link_news` is a full recompute.  Under distinct news ids
(the primary key), after a pass every item's links are exactly the
freshly computed ones, independent of the prior link table; and running
the pass twice on unchanged data gives the same link table as once. -/
theorem c4_linker_full_recompute (news : List NewsItem) (entities : List Entity)
    (links : List Link) (h : (news.map NewsItem.id).Nodup) :
    (∀ item ∈ news,
        (link_news news entities links).filter (fun l => l.news_id == item.id) =
          linksForItem item entities)
    ∧ link_news news entities (link_news news entities links) =
        link_news news entities links := by
  constructor
  · intro item hmem
    rw [link_news_eq news entities links h, List.filter_append]
    have h1 : (links.filter (fun l => !((news.map NewsItem.id).contains l.news_id))).filter
        (fun l => l.news_id == item.id) = [] := by
      rw [List.filter_filter, List.filter_eq_nil_iff]
      intro a _
      by_cases hc : a.news_id = item.id
      · have : a.news_id ∈ news.map NewsItem.id := hc ▸ List.mem_map_of_mem NewsItem.id hmem
        simp [List.contains, List.elem_eq_mem, this]
      · simp [hc]
    rw [h1, List.nil_append, flatMap_filter_item news entities h item hmem]
  · rw [link_news_eq news entities links h,
        link_news_eq news entities _ h, List.filter_append, List.filter_filter]
    have h1 : (links.filter (fun a =>
        !((news.map NewsItem.id).contains a.news_id) &&
          !((news.map NewsItem.id).contains a.news_id))) =
        links.filter (fun l => !((news.map NewsItem.id).contains l.news_id)) := by
      apply List.filter_congr
      intro a _
      rw [Bool.and_self]
    have h2 : ((news.flatMap (fun item => linksForItem item entities)).filter
        (fun l => !((news.map NewsItem.id).contains l.news_id))) = [] := by
      rw [List.filter_eq_nil_iff]
      intro a ha
      rcases List.mem_flatMap.mp ha with ⟨i', hi', ha'⟩
      have : a.news_id ∈ news.map NewsItem.id :=
        mem_linksForItem_news_id ha' ▸ List.mem_map_of_mem NewsItem.id hi'
      simp [List.contains, List.elem_eq_mem, this]
    rw [h1, h2, List.append_nil]

/-- Witness for C4: a one-item news table with a stale link; relinking
twice equals relinking once. -/
theorem c4_linker_full_recompute_witness :
    link_news [⟨1, "ZIM", none⟩] []
        (link_news [⟨1, "ZIM", none⟩] [] [⟨1, some "OLD", none, 9⟩]) =
      link_news [⟨1, "ZIM", none⟩] [] [⟨1, some "OLD", none, 9⟩] :=
  (c4_linker_full_recompute [⟨1, "ZIM", none⟩] [] [⟨1, some "OLD", none, 9⟩] (by decide)).2

/-- Claim C10: every link created by `link_news` carries exactly one of
an asset ticker and an index code, and a linking pass preserves this
shape for the whole table. -/
theorem c10_link_target_exclusive (news : List NewsItem) (entities : List Entity)
    (links : List Link) :
    (∀ (item : NewsItem) (ents : List Entity), ∀ l ∈ linksForItem item ents,
        ExclusiveTarget l)
    ∧ ((∀ l ∈ links, ExclusiveTarget l) →
        ∀ l ∈ link_news news entities links, ExclusiveTarget l) := by
  have hitem : ∀ (item : NewsItem) (ents : List Entity),
      ∀ l ∈ linksForItem item ents, ExclusiveTarget l := by
    intro item ents l hl
    rcases List.mem_append.mp hl with h' | h'
    · rcases mem_assetLinks h' with ⟨-, ⟨t, ht⟩, hc⟩
      exact Or.inr ⟨by simp [ht], hc⟩
    · rcases mem_indexLinks h' with ⟨-, ht, ⟨c, hc⟩⟩
      exact Or.inl ⟨ht, by simp [hc]⟩
  refine ⟨hitem, ?_⟩
  induction news generalizing links with
  | nil => intro h l hl; exact h l hl
  | cons item rest ih =>
      intro h l hl
      rw [link_news, List.foldl_cons] at hl
      refine ih (links.filter (fun l => l.news_id != item.id) ++ linksForItem item entities)
        ?_ l hl
      intro a ha
      rcases List.mem_append.mp ha with h' | h'
      · exact h a (List.mem_filter.mp h').1
      · exact hitem item entities a h'

/-- Witness for C10: the concrete ZIM link produced by a one-item pass
targets exactly an asset. -/
theorem c10_link_target_exclusive_witness :
    ExclusiveTarget ⟨1, some "ZIM", none, 2⟩ :=
  (c10_link_target_exclusive [] [] []).1 ⟨1, "ZIM ZIM", none⟩ []
    ⟨1, some "ZIM", none, 2⟩ (by decide)

/- ------------------------------------------------------------------
   Theorems: compute_daily_returns (claim C2)
   ------------------------------------------------------------------ -/

theorem pctChangeRets_eq_spec (t : String) :
    ∀ (l : List PriceRow), (∀ r ∈ l, r.ticker = t) →
      pctChangeRets l = specConsecutiveReturns t l := by
  intro l
  induction l with
  | nil => intro _; rfl
  | cons p rest ih =>
      intro h
      cases rest with
      | nil => rfl
      | cons q rest' =>
          rw [pctChangeRets, ih (fun r hr => h r (List.mem_cons_of_mem p hr))]
          have hq : q.ticker = t := h q (by simp)
          simp [specConsecutiveReturns, hq]

theorem pctChange_group_ticker (df : List PriceRow) (u : String) :
    ∀ rr ∈ pctChangeRets (sortByDate (df.filter (fun r => r.ticker == u))), rr.ticker = u := by
  have hall : ∀ r ∈ sortByDate (df.filter (fun r => r.ticker == u)), r.ticker = u := by
    intro r hr
    have hmem : r ∈ df.filter (fun r => r.ticker == u) :=
      (List.perm_insertionSort _ _).mem_iff.mp hr
    simpa using (List.mem_filter.mp hmem).2
  rw [pctChangeRets_eq_spec u _ hall]
  intro rr hrr
  rcases List.mem_map.mp hrr with ⟨pr, _, rfl⟩
  rfl

theorem flatMap_groups_filter (ts : List String) (hnd : ts.Nodup)
    (df : List PriceRow) (t : String)
    (hnot : t ∉ ts → df.filter (fun r => r.ticker == t) = []) :
    ((ts.flatMap
        (fun u => pctChangeRets (sortByDate (df.filter (fun r => r.ticker == u))))).filter
        (fun rr => rr.ticker == t)) =
      pctChangeRets (sortByDate (df.filter (fun r => r.ticker == t))) := by
  induction ts with
  | nil =>
      rw [List.flatMap_nil, List.filter_nil, hnot (by simp)]
      rfl
  | cons u rest ih =>
      rw [List.nodup_cons] at hnd
      rw [List.flatMap_cons, List.filter_append]
      by_cases hu : u = t
      · subst hu
        have hhead : ((pctChangeRets (sortByDate (df.filter (fun r => r.ticker == u)))).filter
            (fun rr => rr.ticker == u)) =
            pctChangeRets (sortByDate (df.filter (fun r => r.ticker == u))) := by
          rw [List.filter_eq_self]
          intro a ha
          simp [pctChange_group_ticker df u a ha]
        have hrest : ((rest.flatMap
            (fun u' => pctChangeRets (sortByDate (df.filter (fun r => r.ticker == u'))))).filter
            (fun rr => rr.ticker == u)) = [] := by
          rw [List.filter_eq_nil_iff]
          intro a ha
          rcases List.mem_flatMap.mp ha with ⟨u', hu', ha'⟩
          have : a.ticker = u' := pctChange_group_ticker df u' a ha'
          have hne : u' ≠ u := fun hc => hnd.1 (hc ▸ hu')
          simp [this, hne]
        rw [hhead, hrest, List.append_nil]
      · have hhead : ((pctChangeRets (sortByDate (df.filter (fun r => r.ticker == u)))).filter
            (fun rr => rr.ticker == t)) = [] := by
          rw [List.filter_eq_nil_iff]
          intro a ha
          simp [pctChange_group_ticker df u a ha, hu]
        rw [hhead, List.nil_append]
        exact ih hnd.2 (fun hnt => hnot (fun hmem => (List.mem_cons.mp hmem).elim (fun hc => hu hc.symm) hnt))

theorem sortByDate_eq_of_sorted (rows srows : List PriceRow)
    (hperm : List.Perm srows rows)
    (hsorted : srows.Sorted (fun a b => a.date < b.date)) :
    sortByDate rows = srows := by
  have hp : List.Perm (sortByDate rows) srows :=
    (List.perm_insertionSort _ rows).trans hperm.symm
  have hs1 : (sortByDate rows).Sorted (fun a b => a.date ≤ b.date) :=
    List.sorted_insertionSort _ rows
  have hne : (sortByDate rows).Pairwise (fun a b => a.date ≠ b.date) := by
    have h2 : srows.Pairwise (fun a b : PriceRow => a.date ≠ b.date) :=
      hsorted.imp (fun h => Nat.ne_of_lt h)
    exact (List.Perm.pairwise_iff (fun h => Ne.symm h) hp).mpr h2
  have hs2 : (sortByDate rows).Sorted (fun a b => a.date < b.date) :=
    (hs1.and hne).imp (fun h => Nat.lt_of_le_of_ne h.1 h.2)
  exact List.eq_of_perm_of_sorted hp hs2 hsorted

/-- Claim C2: `compute_daily_returns` emits, per ticker, one row per
consecutive pair of its date-ordered price rows with
`ret = close[i]/close[i-1] - 1`, dropping the first observation
(`specConsecutiveReturns` states the spec's formula over any strictly
date-sorted arrangement `srows` of the ticker's matching rows); an
empty ticker list or no matching rows yield the empty frame with the
fixed columns. -/
theorem c2_compute_daily_returns (tickers : List String) (prices : List PriceRow)
    (t : String) (srows : List PriceRow)
    (hperm : List.Perm srows ((queryRows tickers prices).filter (fun r => r.ticker == t)))
    (hsorted : srows.Sorted (fun a b => a.date < b.date)) :
    (compute_daily_returns [] prices = [])
    ∧ (queryRows tickers prices = [] → compute_daily_returns tickers prices = [])
    ∧ ((compute_daily_returns tickers prices).filter (fun rr => rr.ticker == t) =
        specConsecutiveReturns t srows) := by
  refine ⟨by simp [compute_daily_returns], ?_, ?_⟩
  · intro h
    simp [compute_daily_returns, h]
  · by_cases h0 : tickers.isEmpty
    · have ht : tickers = [] := List.isEmpty_iff.mp h0
      subst ht
      have hq : queryRows [] prices = [] := by
        simp [queryRows]
      rw [hq] at hperm
      rw [List.filter_nil] at hperm
      have : srows = [] := hperm.eq_nil
      subst this
      simp [compute_daily_returns, specConsecutiveReturns]
    · by_cases h1 : (queryRows tickers prices).isEmpty
      · have hq : queryRows tickers prices = [] := List.isEmpty_iff.mp h1
        rw [hq, List.filter_nil] at hperm
        have : srows = [] := hperm.eq_nil
        subst this
        simp [compute_daily_returns, hq, specConsecutiveReturns]
      · have hunfold : compute_daily_returns tickers prices =
            (((queryRows tickers prices).map PriceRow.ticker).dedup).flatMap
              (fun u => pctChangeRets (sortByDate
                ((queryRows tickers prices).filter (fun r => r.ticker == u)))) := by
          rw [compute_daily_returns]
          rw [if_neg (by simp [h0]), if_neg (by simp [h1])]
        rw [hunfold]
        rw [flatMap_groups_filter _ (List.nodup_dedup _) _ t ?hnot]
        case hnot =>
          intro hni
          rw [List.filter_eq_nil_iff]
          intro r hr hbeq
          apply hni
          rw [List.mem_dedup]
          have : r.ticker = t := by simpa using hbeq
          exact this ▸ List.mem_map_of_mem PriceRow.ticker hr
        have hall : ∀ r ∈ srows, r.ticker = t := by
          intro r hr
          have := List.mem_filter.mp (hperm.mem_iff.mp hr)
          simpa using this.2
        rw [sortByDate_eq_of_sorted _ srows hperm hsorted]
        exact pctChangeRets_eq_spec t srows hall

/-- Witness for C2: the spec's own scenario, assets AAA (100 to 110)
and BBB (200 to 220); AAA's single return is 0.10 on day 2. -/
theorem c2_compute_daily_returns_witness : (compute_daily_returns ["AAA", "BBB"]
    [⟨"AAA", 1, 100⟩, ⟨"AAA", 2, 110⟩, ⟨"BBB", 1, 200⟩, ⟨"BBB", 2, 220⟩]).filter
      (fun rr => rr.ticker == "AAA") = [⟨2, "AAA", 1/10⟩] := by
  rw [(c2_compute_daily_returns ["AAA", "BBB"]
      [⟨"AAA", 1, 100⟩, ⟨"AAA", 2, 110⟩, ⟨"BBB", 1, 200⟩, ⟨"BBB", 2, 220⟩] "AAA"
      [⟨"AAA", 1, 100⟩, ⟨"AAA", 2, 110⟩] (by decide) (by decide)).2.2]
  simp [specConsecutiveReturns]
  norm_num

/- ------------------------------------------------------------------
   Theorems: rolling_corr (claim C5)
   ------------------------------------------------------------------ -/

theorem windowPairs_length_le (xs ys : List (Option ℚ)) (w i : Nat) :
    (windowPairs xs ys w i).length ≤ i + 1 := by
  calc (windowPairs xs ys w i).length
      ≤ (((xs.zip ys).take (i + 1)).drop (i + 1 - w)).length :=
        List.length_filterMap_le _ _
    _ ≤ ((xs.zip ys).take (i + 1)).length := by
        rw [List.length_drop]
        omega
    _ ≤ i + 1 := by
        rw [List.length_take]
        omega

theorem rollingCorrCell_none {xs ys : List (Option ℚ)} {w i : Nat}
    (h : (windowPairs xs ys w i).length < w) :
    rollingCorrCell xs ys w i = none := by
  rw [rollingCorrCell]
  simp only [h, if_pos]

/-- Claim C5: in `rolling_corr` output (long rows keyed "A-B"), the
correlation is null at every position whose trailing window holds fewer
than `window` overlapping (both-non-null) observations; in particular
at the first `window - 1` positions of every pair; and when `window`
exceeds the available history every emitted correlation is null. -/
theorem c5_rolling_corr_nulls (retDf : List RetRow) (window : Nat) :
    (∀ a b, (a, b) ∈ pairsOf (pivotTickers retDf) →
      ∀ i, i < (pivotDates retDf).length →
        (windowPairs (pivotColumn retDf a) (pivotColumn retDf b) window i).length < window →
        (⟨(pivotDates retDf).getD i 0, a ++ "-" ++ b, none⟩ : CorrRow) ∈
          rolling_corr retDf window)
    ∧ (∀ a b, (a, b) ∈ pairsOf (pivotTickers retDf) →
      ∀ i, i < (pivotDates retDf).length → i + 1 < window →
        (⟨(pivotDates retDf).getD i 0, a ++ "-" ++ b, none⟩ : CorrRow) ∈
          rolling_corr retDf window)
    ∧ ((pivotDates retDf).length < window →
        ∀ cr ∈ rolling_corr retDf window, cr.corr = none) := by
  have hmem : ∀ a b, (a, b) ∈ pairsOf (pivotTickers retDf) →
      ∀ i, i < (pivotDates retDf).length →
        (windowPairs (pivotColumn retDf a) (pivotColumn retDf b) window i).length < window →
        (⟨(pivotDates retDf).getD i 0, a ++ "-" ++ b, none⟩ : CorrRow) ∈
          rolling_corr retDf window := by
    intro a b hab i hi hw
    have hne : retDf.isEmpty = false := by
      rcases retDf with - | ⟨r, rest⟩
      · simp [pivotDates, sortedNatKeys] at hi
      · rfl
    rw [rolling_corr, hne]
    simp only [Bool.false_eq_true, if_false]
    apply List.mem_flatMap.mpr
    refine ⟨(a, b), hab, ?_⟩
    apply List.mem_map.mpr
    refine ⟨i, List.mem_range.mpr hi, ?_⟩
    rw [rollingCorrCell_none hw]
  refine ⟨hmem, ?_, ?_⟩
  · intro a b hab i hi hiw
    apply hmem a b hab i hi
    calc (windowPairs (pivotColumn retDf a) (pivotColumn retDf b) window i).length
        ≤ i + 1 := windowPairs_length_le _ _ _ _
      _ < window := hiw
  · intro hlen cr hcr
    rw [rolling_corr] at hcr
    split at hcr
    · simp at hcr
    · rcases List.mem_flatMap.mp hcr with ⟨ab, -, hcr'⟩
      rcases List.mem_map.mp hcr' with ⟨i, hi, rfl⟩
      have hi' : i < (pivotDates retDf).length := List.mem_range.mp hi
      apply rollingCorrCell_none
      calc (windowPairs (pivotColumn retDf ab.1) (pivotColumn retDf ab.2) window i).length
          ≤ i + 1 := windowPairs_length_le _ _ _ _
        _ ≤ (pivotDates retDf).length := hi'
        _ < window := hlen

/-- Witness for C5: two tickers with disjoint observation dates and a
window of 5; the first date of the pair "A-B" carries a null
correlation. -/
theorem c5_rolling_corr_nulls_witness :
    (⟨1, "A-B", none⟩ : CorrRow) ∈
      rolling_corr [⟨1, "A", 0⟩, ⟨2, "B", 0⟩] 5 := by
  have h := (c5_rolling_corr_nulls [⟨1, "A", 0⟩, ⟨2, "B", 0⟩] 5).1 "A" "B" (by decide) 0 (by decide)
    (by decide)
  simpa using h

/- ------------------------------------------------------------------
   Theorems: event_study, news_intensity, empty inputs
   (claims C3, C6, C7)
   ------------------------------------------------------------------ -/

/-- Claim C7 (intended behavior): the four analytics functions, as
their bodies are written, return the empty frame with fixed columns on
every legitimate empty input: empty ticker list, no matching price
rows, empty news table, empty returns frame, no linked news.  As
shipped, however, `analytics.py` is a `SyntaxError` (see the module
note above), so every call raises at import time; the claim is
therefore settled as a code bug, with this theorem establishing the
intended semantics. -/
theorem c7_analytics_empty_inputs (tickers : List String) (prices : List PriceRow)
    (news : List NewsRow) (links : List Link) (t : String) (w : Int × Int) (window : Nat) :
    (compute_daily_returns [] prices = [])
    ∧ (queryRows tickers prices = [] → compute_daily_returns tickers prices = [])
    ∧ (news_intensity [] = [])
    ∧ (rolling_corr [] window = [])
    ∧ (compute_daily_returns WATCHLIST_TICKERS prices = [] →
        event_study prices news links t w = [])
    ∧ (eventDays news links t = [] → event_study prices news links t w = []) := by
  refine ⟨by simp [compute_daily_returns], ?_, rfl, rfl, ?_, ?_⟩
  · intro h
    simp [compute_daily_returns, h]
  · intro h
    simp [event_study, h]
  · intro h
    simp [event_study, h]

/-- Witness for C7: an event study over an empty database is empty. -/
theorem c7_analytics_empty_inputs_witness : event_study [] [] [] "ZIM" (-3, 3) = [] :=
  (c7_analytics_empty_inputs [] [] [] [] "ZIM" (-3, 3) 0).2.2.2.2.1 (by decide)

theorem mem_sortedIntKeys {l : List Int} {r : Int} :
    r ∈ sortedIntKeys l ↔ r ∈ l := by
  rw [sortedIntKeys]
  rw [(List.perm_insertionSort (fun a b => a ≤ b) l.dedup).mem_iff]
  exact List.mem_dedup

theorem offsetVals_ne_nil {cs : List (Int × ℚ)} {r : Int}
    (h : ∃ c ∈ cs, c.1 = r) : offsetVals cs r ≠ [] := by
  rcases h with ⟨c, hc, hr⟩
  have : c ∈ cs.filter (fun c => c.1 == r) := List.mem_filter.mpr ⟨hc, by simp [hr]⟩
  simp only [offsetVals]
  intro hcontra
  rw [List.map_eq_nil_iff] at hcontra
  rw [hcontra] at this
  simp at this

/-- Claim C3: `event_study` — conjuncts: (i) empty watchlist returns
give the empty frame; (ii) no linked news gives the empty frame;
(iii) every abnormal-return observation is a target-ticker return minus
the equal-weight mean of all watchlist returns of that day; (iv) the
event-window observations are exactly the abnormal returns on days
within `[event + w.1, event + w.2]` inclusive of some linked-news event
day, tagged with the day offset; (v) every output row aggregates one
offset: its count, mean and sample variance (the source's `abret_std`
is this variance's square root) over exactly the contributing
observations, offsets with none being absent; (vi) every offset with a
contributing observation is present. -/
theorem c3_event_study (prices : List PriceRow) (news : List NewsRow) (links : List Link)
    (t : String) (w : Int × Int) :
    (compute_daily_returns WATCHLIST_TICKERS prices = [] →
        event_study prices news links t w = [])
    ∧ (eventDays news links t = [] → event_study prices news links t w = [])
    ∧ (∀ p ∈ abnormalRows (compute_daily_returns WATCHLIST_TICKERS prices) t,
        ∃ rr ∈ compute_daily_returns WATCHLIST_TICKERS prices,
          rr.ticker = t ∧ p.1 = rr.date ∧
          p.2 = rr.ret -
            (((compute_daily_returns WATCHLIST_TICKERS prices).filter
                (fun x => x.date == rr.date)).map RetRow.ret).sum /
              (((((compute_daily_returns WATCHLIST_TICKERS prices).filter
                (fun x => x.date == rr.date)).map RetRow.ret).length : ℚ)))
    ∧ (∀ (r : Int) (v : ℚ),
        (r, v) ∈ eventContribs (compute_daily_returns WATCHLIST_TICKERS prices)
            news links t w ↔
          ∃ ed ∈ eventDays news links t,
            ∃ p ∈ abnormalRows (compute_daily_returns WATCHLIST_TICKERS prices) t,
              (ed : Int) + w.1 ≤ (p.1 : Int) ∧ (p.1 : Int) ≤ (ed : Int) + w.2 ∧
                r = (p.1 : Int) - (ed : Int) ∧ v = p.2)
    ∧ (∀ row ∈ event_study prices news links t w,
        offsetVals (eventContribs (compute_daily_returns WATCHLIST_TICKERS prices)
            news links t w) row.rel_day ≠ [] ∧
        row.n_events = (offsetVals (eventContribs
            (compute_daily_returns WATCHLIST_TICKERS prices) news links t w)
              row.rel_day).length ∧
        row.abret_mean = (offsetVals (eventContribs
            (compute_daily_returns WATCHLIST_TICKERS prices) news links t w)
              row.rel_day).sum /
          ((offsetVals (eventContribs (compute_daily_returns WATCHLIST_TICKERS prices)
              news links t w) row.rel_day).length : ℚ) ∧
        row.abret_var = sampleVar (offsetVals (eventContribs
            (compute_daily_returns WATCHLIST_TICKERS prices) news links t w) row.rel_day))
    ∧ (∀ r : Int,
        offsetVals (eventContribs (compute_daily_returns WATCHLIST_TICKERS prices)
            news links t w) r ≠ [] →
          ∃ row ∈ event_study prices news links t w, row.rel_day = r) := by
  refine ⟨?_, ?_, ?_, ?_, ?_, ?_⟩
  · intro h
    simp [event_study, h]
  · intro h
    simp [event_study, h]
  · intro p hp
    rcases List.mem_map.mp hp with ⟨rr, hrr, rfl⟩
    have hmem := List.mem_filter.mp hrr
    refine ⟨rr, hmem.1, by simpa using hmem.2, rfl, ?_⟩
    rfl
  · intro r v
    simp only [eventContribs, List.mem_flatMap, List.mem_map, List.mem_filter,
      Bool.and_eq_true, decide_eq_true_eq, Prod.mk.injEq]
    constructor
    · rintro ⟨ed, hed, p, ⟨hp, h1, h2⟩, h3, h4⟩
      exact ⟨ed, hed, p, hp, h1, h2, h3.symm, h4.symm⟩
    · rintro ⟨ed, hed, p, hp, h1, h2, h3, h4⟩
      exact ⟨ed, hed, p, ⟨hp, h1, h2⟩, h3.symm, h4.symm⟩
  · intro row hrow
    rw [event_study] at hrow
    split at hrow
    · simp at hrow
    · split at hrow
      · simp at hrow
      · split at hrow
        · simp at hrow
        · rcases List.mem_map.mp hrow with ⟨r, hr, rfl⟩
          have hr' : r ∈ (eventContribs (compute_daily_returns WATCHLIST_TICKERS prices)
              news links t w).map Prod.fst := mem_sortedIntKeys.mp hr
          rcases List.mem_map.mp hr' with ⟨c, hc, rfl⟩
          exact ⟨offsetVals_ne_nil ⟨c, hc, rfl⟩, rfl, rfl, rfl⟩
  · intro r hne
    have hc : ∃ c ∈ eventContribs (compute_daily_returns WATCHLIST_TICKERS prices)
        news links t w, c.1 = r := by
      by_contra hcon
      push_neg at hcon
      apply hne
      rw [offsetVals, List.map_eq_nil_iff, List.filter_eq_nil_iff]
      intro c hcmem
      simpa using hcon c hcmem
    rcases hc with ⟨c, hc, hcr⟩
    rcases List.mem_flatMap.mp hc with ⟨ed, hed, hc'⟩
    rcases List.mem_map.mp hc' with ⟨p, hpf, -⟩
    have hp : p ∈ abnormalRows (compute_daily_returns WATCHLIST_TICKERS prices) t :=
      (List.mem_filter.mp hpf).1
    rcases List.mem_map.mp hp with ⟨rr, hrrf, -⟩
    have hrr : rr ∈ compute_daily_returns WATCHLIST_TICKERS prices :=
      (List.mem_filter.mp hrrf).1
    have hretne : compute_daily_returns WATCHLIST_TICKERS prices ≠ [] :=
      List.ne_nil_of_mem hrr
    have hedne : eventDays news links t ≠ [] := List.ne_nil_of_mem hed
    have hcsne : eventContribs (compute_daily_returns WATCHLIST_TICKERS prices)
        news links t w ≠ [] := List.ne_nil_of_mem hc
    refine ⟨⟨r, (offsetVals (eventContribs (compute_daily_returns WATCHLIST_TICKERS prices)
        news links t w) r).sum /
          ((offsetVals (eventContribs (compute_daily_returns WATCHLIST_TICKERS prices)
            news links t w) r).length : ℚ),
        sampleVar (offsetVals (eventContribs (compute_daily_returns WATCHLIST_TICKERS prices)
          news links t w) r),
        (offsetVals (eventContribs (compute_daily_returns WATCHLIST_TICKERS prices)
          news links t w) r).length⟩, ?_, rfl⟩
    rw [event_study]
    rw [if_neg (by simp [List.isEmpty_iff, hretne]),
        if_neg (by simp [List.isEmpty_iff, hedne]),
        if_neg (by simp [List.isEmpty_iff, hcsne])]
    apply List.mem_map.mpr
    refine ⟨r, ?_, rfl⟩
    rw [mem_sortedIntKeys]
    exact hcr ▸ List.mem_map_of_mem Prod.fst hc

/-- Witness for C3: with no links there are no event days, and the
study of a populated price history is empty. -/
theorem c3_event_study_witness :
    event_study [⟨"ZIM", 1, 10⟩, ⟨"ZIM", 2, 11⟩] [] [] "ZIM" (-3, 3) = [] :=
  (c3_event_study [⟨"ZIM", 1, 10⟩, ⟨"ZIM", 2, 11⟩] [] [] "ZIM" (-3, 3)).2.1 (by decide)

unseal Rat.mul Rat.inv Rat.add Rat.sub in
/-- Claim C6 (intended behavior): `news_intensity` groups news by UTC
day and averages derived-summary lengths; the spec's scenario of three
items on two days with lengths 4, 10 and 3 yields counts 2 and 1 with
averages 7 and 3.  As shipped, the expression computing the length
(`analytics.py` line 99, `fillna(""")`) makes the module a
`SyntaxError`, so `news_intensity` can never run; the claim describes
the documented and tested intent, hence a code bug.  The `unseal`
makes the kernel-irreducible rational operations reducible so that
`decide` can evaluate the averages. -/
theorem c6_news_intensity_scenario :
    news_intensity
      [⟨1, "u1", "t1", some "", some "good", some ⟨1, 10⟩, none⟩,
       ⟨2, "u2", "t2", some "", some "betternews", some ⟨1, 12⟩, none⟩,
       ⟨3, "u3", "t3", some "", some "bad", some ⟨2, 9⟩, none⟩] =
      [⟨1, 2, 7⟩, ⟨2, 1, 3⟩] := by decide

/- ------------------------------------------------------------------
   Theorems: CSV index import (claim C8)
   ------------------------------------------------------------------ -/

theorem csvPipeline_eq_spec (pd : String → Option Nat) (pn : String → Option ℚ)
    (rows : List CsvRow) :
    (((rows.filter (fun r =>
        r.date.isSome && r.index_code.isSome && r.value.isSome && r.source.isSome)).map
          (fun r => (pd (r.date.getD ""), r.index_code.getD "", pn (r.value.getD "")))).filterMap
      (fun x =>
        match x.1, x.2.2 with
        | some d, some v => some (⟨x.2.1, d, v⟩ : IdxUpRow)
        | _, _ => none)) = specCleanRows pd pn rows := by
  induction rows with
  | nil => rfl
  | cons r rest ih =>
      rcases r with ⟨d, c, v, s⟩
      rcases d with - | ds <;> rcases c with - | cs <;> rcases v with - | vs <;>
        rcases s with - | ss <;>
          simp_all [specCleanRows, List.filter_cons, List.filterMap_cons] <;>
            rcases pd ds with - | pdv <;> rcases pn vs with - | pnv <;>
              simp [Option.bind]

/-- Claim C8: the CSV index import is a no-op on a missing file; it
upserts exactly the rows with no null among date/index_code/value/source
and successful date and number coercions (`specCleanRows` states the
spec's row-survival rule, proved equal to the source's staged
pipeline); and importing one valid row into an empty database creates
exactly one `Index` row and one `IndexPoint` row carrying the parsed
date and value. -/
theorem c8_csv_import (pd : String → Option Nat) (pn : String → Option ℚ)
    (rows : List CsvRow) (st : DB)
    (c ds vs src : String) (d : Nat) (v : ℚ)
    (hd : pd ds = some d) (hv : pn vs = some v) :
    (csvImportIndices pd pn none st = st)
    ∧ (csvImportIndices pd pn (some rows) st =
        if (specCleanRows pd pn rows).isEmpty then st
        else upsert_df (specCleanRows pd pn rows) st)
    ∧ ((csvImportIndices pd pn (some [⟨some ds, some c, some vs, some src⟩]) emptyDB).indices =
          [⟨0, c⟩]
        ∧ (csvImportIndices pd pn (some [⟨some ds, some c, some vs, some src⟩])
            emptyDB).points = [⟨0, d, v⟩]) := by
  refine ⟨rfl, ?_, ?_⟩
  · show (if _ then st else _) = _
    rw [csvPipeline_eq_spec pd pn rows]
  · have hclean : specCleanRows pd pn [⟨some ds, some c, some vs, some src⟩] =
        [⟨c, d, v⟩] := by
      simp [specCleanRows, hd, hv]
    have hb : csvImportIndices pd pn (some [⟨some ds, some c, some vs, some src⟩]) emptyDB =
        upsert_df [⟨c, d, v⟩] emptyDB := by
      have h2 : csvImportIndices pd pn (some [⟨some ds, some c, some vs, some src⟩]) emptyDB =
          if (specCleanRows pd pn [⟨some ds, some c, some vs, some src⟩]).isEmpty then emptyDB
          else upsert_df (specCleanRows pd pn [⟨some ds, some c, some vs, some src⟩]) emptyDB := by
        show (if _ then emptyDB else _) = _
        rw [csvPipeline_eq_spec pd pn _]
      rw [h2, hclean]
      rfl
    rw [hb]
    exact ⟨rfl, rfl⟩

/-- Witness for C8: one valid CSV row imported into the empty database
yields a single index "TEST" and its single point. -/
theorem c8_csv_import_witness :
    (csvImportIndices (fun _ => some 738886) (fun _ => some 5)
        (some [⟨some "2024-01-01", some "TEST", some "123.45", some "unit"⟩]) emptyDB).indices =
      [⟨0, "TEST"⟩] ∧
    (csvImportIndices (fun _ => some 738886) (fun _ => some 5)
        (some [⟨some "2024-01-01", some "TEST", some "123.45", some "unit"⟩]) emptyDB).points =
      [⟨0, 738886, 5⟩] :=
  (c8_csv_import (fun _ => some 738886) (fun _ => some 5) [] emptyDB "TEST" "2024-01-01"
    "123.45" "unit" 738886 5 rfl rfl).2.2

/- ------------------------------------------------------------------
   Theorems: upsert key invariants (claim C9)
   ------------------------------------------------------------------ -/

theorem priceKeys_upd (prices : List PriceRec) (aid d : Nat) (r : PriceDfRow) :
    ((prices.map (fun p =>
        if p.asset_id == aid && p.date == d then
          { p with openp := r.openp, high := r.high, low := r.low,
                   close := r.close, volume := r.volume }
        else p)).map (fun p => (p.asset_id, p.date))) =
      prices.map (fun p => (p.asset_id, p.date)) := by
  rw [List.map_map]
  apply List.map_congr_left
  intro p _
  simp only [Function.comp]
  split <;> rfl

theorem upsertPriceRow_inv (st : DB) (aid : Nat) (r : PriceDfRow) (h : DBInv st) :
    DBInv (upsertPriceRow st aid r)
    ∧ (upsertPriceRow st aid r).points = st.points
    ∧ (upsertPriceRow st aid r).news = st.news
    ∧ (upsertPriceRow st aid r).assets = st.assets
    ∧ (upsertPriceRow st aid r).indices = st.indices := by
  rcases hfind : st.prices.find? (fun p => p.asset_id == aid && p.date == r.date)
    with - | p
  · have hout : upsertPriceRow st aid r =
        { st with prices := st.prices ++ [⟨aid, r.date, r.openp, r.high, r.low,
            r.close, r.volume⟩] } := by
      rw [upsertPriceRow, hfind]
    rw [hout]
    refine ⟨⟨?_, h.2.1, h.2.2.1, h.2.2.2.1, h.2.2.2.2⟩, rfl, rfl, rfl, rfl⟩
    rw [List.map_append, List.nodup_append]
    refine ⟨h.1, by simp, ?_⟩
    rw [List.map_singleton, List.disjoint_singleton]
    intro hmem
    rcases List.mem_map.mp hmem with ⟨q, hq, heq⟩
    apply List.find?_eq_none.mp hfind q hq
    have h1 : q.asset_id = aid := congrArg Prod.fst heq
    have h2 : q.date = r.date := congrArg Prod.snd heq
    simp [h1, h2]
  · have hout : upsertPriceRow st aid r =
        { st with prices := st.prices.map (fun q =>
            if q.asset_id == aid && q.date == r.date then
              { q with openp := r.openp, high := r.high, low := r.low,
                       close := r.close, volume := r.volume }
            else q) } := by
      rw [upsertPriceRow, hfind]
    rw [hout]
    exact ⟨⟨by rw [priceKeys_upd]; exact h.1, h.2.1, h.2.2.1, h.2.2.2.1, h.2.2.2.2⟩,
      rfl, rfl, rfl, rfl⟩

theorem findOrCreateAsset_inv (st : DB) (t : String) (h : DBInv st) :
    DBInv (findOrCreateAsset st t).1
    ∧ (findOrCreateAsset st t).1.prices = st.prices
    ∧ (findOrCreateAsset st t).1.points = st.points
    ∧ (findOrCreateAsset st t).1.news = st.news
    ∧ (findOrCreateAsset st t).1.indices = st.indices := by
  rcases hfind : st.assets.find? (fun a => a.ticker == t) with - | a
  · have hout : (findOrCreateAsset st t).1 =
        { st with assets := st.assets ++ [⟨st.nextAssetId, t⟩],
                  nextAssetId := st.nextAssetId + 1 } := by
      rw [findOrCreateAsset, hfind]
    rw [hout]
    refine ⟨⟨h.1, h.2.1, h.2.2.1, ?_, h.2.2.2.2⟩, rfl, rfl, rfl, rfl⟩
    rw [List.map_append, List.nodup_append]
    refine ⟨h.2.2.2.1, by simp, ?_⟩
    rw [List.map_singleton, List.disjoint_singleton]
    intro hmem
    rcases List.mem_map.mp hmem with ⟨a, ha, heq⟩
    exact List.find?_eq_none.mp hfind a ha (by simp [heq])
  · have hout : (findOrCreateAsset st t).1 = st := by
      rw [findOrCreateAsset, hfind]
    rw [hout]
    exact ⟨h, rfl, rfl, rfl, rfl⟩

theorem upsert_prices_inv (df : List PriceDfRow) (st : DB) (h : DBInv st) :
    DBInv (upsert_prices df st) := by
  induction df generalizing st with
  | nil => exact h
  | cons r rest ih =>
      rw [upsert_prices, List.foldl_cons]
      exact ih _ (upsertPriceRow_inv _ _ r (findOrCreateAsset_inv st r.ticker h).1).1

theorem pointKeys_upd (points : List PointRec) (iid d : Nat) (v : ℚ) :
    ((points.map (fun p =>
        if p.index_id == iid && p.date == d then { p with value := v } else p)).map
      (fun p => (p.index_id, p.date))) =
      points.map (fun p => (p.index_id, p.date)) := by
  rw [List.map_map]
  apply List.map_congr_left
  intro p _
  simp only [Function.comp]
  split <;> rfl

theorem upsertPointFor_inv (st : DB) (iid : Nat) (r : IdxUpRow) (h : DBInv st) :
    DBInv (upsertPointFor st iid r)
    ∧ (upsertPointFor st iid r).prices = st.prices
    ∧ (upsertPointFor st iid r).news = st.news
    ∧ (upsertPointFor st iid r).assets = st.assets
    ∧ (upsertPointFor st iid r).indices = st.indices := by
  rcases hfind : st.points.find? (fun p => p.index_id == iid && p.date == r.date)
    with - | q
  · have hout : upsertPointFor st iid r =
        { st with points := st.points ++ [⟨iid, r.date, r.value⟩] } := by
      rw [upsertPointFor, hfind]
    rw [hout]
    refine ⟨⟨h.1, ?_, h.2.2.1, h.2.2.2.1, h.2.2.2.2⟩, rfl, rfl, rfl, rfl⟩
    rw [List.map_append, List.nodup_append]
    refine ⟨h.2.1, by simp, ?_⟩
    rw [List.map_singleton, List.disjoint_singleton]
    intro hmem
    rcases List.mem_map.mp hmem with ⟨q, hq, heq⟩
    apply List.find?_eq_none.mp hfind q hq
    have h1 : q.index_id = iid := congrArg Prod.fst heq
    have h2 : q.date = r.date := congrArg Prod.snd heq
    simp [h1, h2]
  · have hout : upsertPointFor st iid r =
        { st with points := st.points.map (fun p =>
            if p.index_id == iid && p.date == r.date then { p with value := r.value }
            else p) } := by
      rw [upsertPointFor, hfind]
    rw [hout]
    exact ⟨⟨h.1, by rw [pointKeys_upd]; exact h.2.1, h.2.2.1, h.2.2.2.1, h.2.2.2.2⟩,
      rfl, rfl, rfl, rfl⟩

theorem findOrCreateIndex_inv (st : DB) (c : String) (h : DBInv st) :
    DBInv (findOrCreateIndex st c).1
    ∧ (findOrCreateIndex st c).1.prices = st.prices
    ∧ (findOrCreateIndex st c).1.points = st.points
    ∧ (findOrCreateIndex st c).1.news = st.news
    ∧ (findOrCreateIndex st c).1.assets = st.assets := by
  rcases hfind : st.indices.find? (fun i => i.code == c) with - | i
  · have hout : (findOrCreateIndex st c).1 =
        { st with indices := st.indices ++ [⟨st.nextIndexId, c⟩],
                  nextIndexId := st.nextIndexId + 1 } := by
      rw [findOrCreateIndex, hfind]
    rw [hout]
    refine ⟨⟨h.1, h.2.1, h.2.2.1, h.2.2.2.1, ?_⟩, rfl, rfl, rfl, rfl⟩
    rw [List.map_append, List.nodup_append]
    refine ⟨h.2.2.2.2, by simp, ?_⟩
    rw [List.map_singleton, List.disjoint_singleton]
    intro hmem
    rcases List.mem_map.mp hmem with ⟨i, hi, heq⟩
    exact List.find?_eq_none.mp hfind i hi (by simp [heq])
  · have hout : (findOrCreateIndex st c).1 = st := by
      rw [findOrCreateIndex, hfind]
    rw [hout]
    exact ⟨h, rfl, rfl, rfl, rfl⟩

theorem upsert_df_inv (rows : List IdxUpRow) (st : DB) (h : DBInv st) :
    DBInv (upsert_df rows st) := by
  induction rows generalizing st with
  | nil => exact h
  | cons r rest ih =>
      rw [upsert_df, List.foldl_cons]
      exact ih _ (upsertPointFor_inv _ _ r (findOrCreateIndex_inv st r.index_code h).1).1

theorem newsUrls_upd (news : List NewsRow) (r : NewsDfRow) :
    ((news.map (fun n =>
        if n.url == r.url then
          { n with title := r.title, summary := r.summary,
                   published_at := r.ts, source := r.source }
        else n)).map NewsRow.url) = news.map NewsRow.url := by
  rw [List.map_map]
  apply List.map_congr_left
  intro n _
  simp only [Function.comp]
  split <;> rfl

theorem upsertNewsRow_inv (st : DB) (r : NewsDfRow) (h : DBInv st) :
    DBInv (upsertNewsRow st r)
    ∧ (upsertNewsRow st r).prices = st.prices
    ∧ (upsertNewsRow st r).points = st.points
    ∧ (upsertNewsRow st r).assets = st.assets
    ∧ (upsertNewsRow st r).indices = st.indices := by
  by_cases hany : st.news.any (fun n => n.url == r.url)
  · have hout : upsertNewsRow st r =
        { st with news := st.news.map (fun n =>
            if n.url == r.url then
              { n with title := r.title, summary := r.summary,
                       published_at := r.ts, source := r.source }
            else n) } := by
      rw [upsertNewsRow, if_pos hany]
    rw [hout]
    exact ⟨⟨h.1, h.2.1, by rw [newsUrls_upd]; exact h.2.2.1, h.2.2.2.1, h.2.2.2.2⟩,
      rfl, rfl, rfl, rfl⟩
  · have hout : upsertNewsRow st r =
        { st with
            news := st.news ++ [⟨st.nextNewsId, r.url, r.title, r.summary, none,
              r.ts, r.source⟩],
            nextNewsId := st.nextNewsId + 1 } := by
      rw [upsertNewsRow, if_neg hany]
    rw [hout]
    refine ⟨⟨h.1, h.2.1, ?_, h.2.2.2.1, h.2.2.2.2⟩, rfl, rfl, rfl, rfl⟩
    rw [List.map_append, List.nodup_append]
    refine ⟨h.2.2.1, by simp, ?_⟩
    rw [List.map_singleton, List.disjoint_singleton]
    intro hmem
    rcases List.mem_map.mp hmem with ⟨n, hn, heq⟩
    apply hany
    rw [List.any_eq_true]
    exact ⟨n, hn, by simp [heq]⟩

theorem upsert_news_inv (df : List NewsDfRow) (st : DB) (h : DBInv st) :
    DBInv (upsert_news df st) := by
  induction df generalizing st with
  | nil => exact h
  | cons r rest ih =>
      rw [upsert_news, List.foldl_cons]
      exact ih _ (upsertNewsRow_inv st r h).1

theorem applyOps_inv (ops : List DBOp) (st : DB) (h : DBInv st) :
    DBInv (applyOps ops st) := by
  induction ops generalizing st with
  | nil => exact h
  | cons op rest ih =>
      rw [applyOps, List.foldl_cons]
      rcases op with df | rows | df
      · exact ih _ (upsert_prices_inv df st h)
      · exact ih _ (upsert_df_inv rows st h)
      · exact ih _ (upsert_news_inv df st h)

/-- Claim C9: any sequence of price, index-point and news upserts
preserves the natural-key uniqueness invariants (`DBInv`), and
re-inserting an existing key — a news url, a price `(asset_id, date)`,
a point `(index_id, date)` — leaves the table size unchanged and
rewrites the keyed row's non-key columns to the new values. -/
theorem c9_upsert_unique_keys (ops : List DBOp) (st : DB) (h : DBInv st) :
    DBInv (applyOps ops st)
    ∧ (∀ r : NewsDfRow, r.url ∈ st.news.map NewsRow.url →
        (upsertNewsRow st r).news.length = st.news.length ∧
        ∀ n ∈ (upsertNewsRow st r).news, n.url = r.url →
          n.title = r.title ∧ n.summary = r.summary ∧ n.published_at = r.ts ∧
            n.source = r.source)
    ∧ (∀ (aid : Nat) (r : PriceDfRow),
        (aid, r.date) ∈ st.prices.map (fun p => (p.asset_id, p.date)) →
        (upsertPriceRow st aid r).prices.length = st.prices.length ∧
        ∀ p ∈ (upsertPriceRow st aid r).prices, p.asset_id = aid → p.date = r.date →
          p.openp = r.openp ∧ p.high = r.high ∧ p.low = r.low ∧ p.close = r.close ∧
            p.volume = r.volume)
    ∧ (∀ (iid : Nat) (r : IdxUpRow),
        (iid, r.date) ∈ st.points.map (fun p => (p.index_id, p.date)) →
        (upsertPointFor st iid r).points.length = st.points.length ∧
        ∀ p ∈ (upsertPointFor st iid r).points, p.index_id = iid → p.date = r.date →
          p.value = r.value) := by
  refine ⟨applyOps_inv ops st h, ?_, ?_, ?_⟩
  · intro r hmem
    have hany : st.news.any (fun n => n.url == r.url) = true := by
      rcases List.mem_map.mp hmem with ⟨n, hn, heq⟩
      rw [List.any_eq_true]
      exact ⟨n, hn, by simp [heq]⟩
    have hout : upsertNewsRow st r =
        { st with news := st.news.map (fun n =>
            if n.url == r.url then
              { n with title := r.title, summary := r.summary,
                       published_at := r.ts, source := r.source }
            else n) } := by
      rw [upsertNewsRow, if_pos hany]
    rw [hout]
    refine ⟨List.length_map _ _, ?_⟩
    intro n hn hurl
    rcases List.mem_map.mp hn with ⟨m, hm, rfl⟩
    by_cases hc : (m.url == r.url) = true
    · simp [hc]
    · rw [if_neg hc] at hurl ⊢
      exact absurd (by simp [hurl]) hc
  · intro aid r hmem
    have hsome : (st.prices.find? (fun p => p.asset_id == aid && p.date == r.date)).isSome := by
      rw [List.find?_isSome]
      rcases List.mem_map.mp hmem with ⟨q, hq, heq⟩
      refine ⟨q, hq, ?_⟩
      have h1 : q.asset_id = aid := congrArg Prod.fst heq
      have h2 : q.date = r.date := congrArg Prod.snd heq
      simp [h1, h2]
    rcases hfind : st.prices.find? (fun p => p.asset_id == aid && p.date == r.date)
      with - | q
    · rw [hfind] at hsome
      simp at hsome
    · have hout : upsertPriceRow st aid r =
          { st with prices := st.prices.map (fun q =>
              if q.asset_id == aid && q.date == r.date then
                { q with openp := r.openp, high := r.high, low := r.low,
                         close := r.close, volume := r.volume }
              else q) } := by
        rw [upsertPriceRow, hfind]
      rw [hout]
      refine ⟨List.length_map _ _, ?_⟩
      intro p hp haid hdate
      rcases List.mem_map.mp hp with ⟨m, hm, rfl⟩
      by_cases hc : (m.asset_id == aid && m.date == r.date) = true
      · simp [hc]
      · rw [if_neg hc] at haid hdate ⊢
        exact absurd (by simp [haid, hdate]) hc
  · intro iid r hmem
    have hsome : (st.points.find? (fun p => p.index_id == iid && p.date == r.date)).isSome := by
      rw [List.find?_isSome]
      rcases List.mem_map.mp hmem with ⟨q, hq, heq⟩
      refine ⟨q, hq, ?_⟩
      have h1 : q.index_id = iid := congrArg Prod.fst heq
      have h2 : q.date = r.date := congrArg Prod.snd heq
      simp [h1, h2]
    rcases hfind : st.points.find? (fun p => p.index_id == iid && p.date == r.date)
      with - | q
    · rw [hfind] at hsome
      simp at hsome
    · have hout : upsertPointFor st iid r =
          { st with points := st.points.map (fun p =>
              if p.index_id == iid && p.date == r.date then { p with value := r.value }
              else p) } := by
        rw [upsertPointFor, hfind]
      rw [hout]
      refine ⟨List.length_map _ _, ?_⟩
      intro p hp hiid hdate
      rcases List.mem_map.mp hp with ⟨m, hm, rfl⟩
      by_cases hc : (m.index_id == iid && m.date == r.date) = true
      · simp [hc]
      · rw [if_neg hc] at hiid hdate ⊢
        exact absurd (by simp [hiid, hdate]) hc

/-- Witness for C9: a sequence of news, index and price upserts with
repeated keys applied to the empty database keeps every key unique. -/
theorem c9_upsert_unique_keys_witness :
    DBInv (applyOps
      [DBOp.newsUp [⟨"u1", "t1", none, none, none⟩, ⟨"u1", "t2", none, none, none⟩],
       DBOp.indexUp [⟨"SCFI", 1, 5⟩, ⟨"SCFI", 1, 6⟩],
       DBOp.priceUp [⟨"ZIM", 1, none, none, none, some 10, none⟩,
                     ⟨"ZIM", 1, none, none, none, some 11, none⟩]]
      emptyDB) :=
  (c9_upsert_unique_keys _ emptyDB (by simp [DBInv, emptyDB])).1
